import Mathlib

/-!
Verification of the RoseTTAFold fragment: the device-compatibility helpers
(network/utils/utils_mps_fallback.py, network/utils/utils_decorators.py),
the initial-structure generator network (network/InitStrGenerator.py), and
the native-extension build descriptor (lie_learn/setup.py).

Tensors are embedded at two levels: shapes are lists of natural numbers
(torch sizes), and value-carrying tensors are functions out of Fin types.
Real-valued operations use rationals; the logarithm of torch.log is an
abstract parameter, since every property proved here holds for any value of
the logarithm after clamping.
-/

/-! ## torch.device model (utils_mps_fallback.py) -/

/-- A torch.device: a device-type string together with an optional index. -/
structure Device where
  type : String
  index : Option Nat
deriving DecidableEq, Repr

/-- The device produced by the call torch.device applied to the string cpu. -/
def torch_device_cpu : Device := { type := "cpu", index := none }

/-- utils_mps_fallback.py lines 3-17: return CPU when the device type is the
string mps, otherwise return the device unchanged. -/
def fallback_to_cpu_if_mps (device : Device) : Device :=
  if device.type = "mps" then torch_device_cpu else device

/-! ## cuda_amp_autocast model (utils_decorators.py) -/

/-- A Python callable as seen by the decorator: either an underlying
function (identified by a tag) or a function wrapped by the library
decorator torch.cuda.amp.autocast with a given enabled flag. -/
inductive PyCallable where
  | fn : Nat → PyCallable
  | autocast_wrapped : Bool → PyCallable → PyCallable
deriving DecidableEq, Repr

/-- The ambient torch runtime state read by the decorator: the result of
torch.cuda.is_available(). -/
structure TorchEnv where
  cuda_is_available : Bool
deriving DecidableEq, Repr

/-- The library call torch.cuda.amp.autocast(enabled=enabled)(func): wraps
the callable. -/
def torch_cuda_amp_autocast_apply (enabled : Bool) (func : PyCallable) : PyCallable :=
  PyCallable.autocast_wrapped enabled func

/-- utils_decorators.py lines 3-18: the inner decorator closure returned by
cuda_amp_autocast(enabled): wraps func iff torch.cuda.is_available(). -/
def cuda_amp_autocast_decorator (enabled : Bool) (env : TorchEnv) (func : PyCallable) : PyCallable :=
  if env.cuda_is_available then torch_cuda_amp_autocast_apply enabled func else func

/-- utils_decorators.py: cuda_amp_autocast(enabled) returns the decorator
closure. -/
def cuda_amp_autocast (enabled : Bool) (env : TorchEnv) : PyCallable → PyCallable :=
  cuda_amp_autocast_decorator enabled env

/-! ## get_seqsep (InitStrGenerator.py lines 11-24)

The residue-index tensor idx has integer entries and shape (B, L); the
output has shape (B, L, L, 1), expressed by the Fin-indexed function type.
torch.log is abstracted by a parameter log applied to the integer
abs(seqsep) + 1; every property claimed of get_seqsep holds for an
arbitrary log because of the clamp to the interval from 0 to 5.5. -/
def get_seqsep (log : ℤ → ℚ) {B L : Nat} (idx : Fin B → Fin L → ℤ) :
    Fin B → Fin L → Fin L → Fin 1 → ℚ := fun b i j _ =>
  -- seqsep = idx[:,None,:] - idx[:,:,None], entry (b,i,j) = idx[b,j] - idx[b,i]
  let seqsep : ℤ := idx b j - idx b i
  -- sign = torch.sign(seqsep)
  let sign : ℚ := ((Int.sign seqsep : ℤ) : ℚ)
  -- seqsep = torch.log(torch.abs(seqsep) + 1.0)
  let logv : ℚ := log (|seqsep| + 1)
  -- seqsep = torch.clamp(seqsep, 0.0, 5.5)
  let clamped : ℚ := min (max logv 0) 5.5
  -- seqsep = sign * seqsep  (then unsqueeze(-1) adds the trailing dim of size 1)
  sign * clamped

/-! ## Shape calculus for the torch operations used by InitStrGenerator.py

A shape is the list of sizes of a tensor. Operations that can raise in
torch return Option: none models the torch runtime error. -/

abbrev Shape := List Nat

/-- Total number of elements of a tensor of the given shape. -/
def numel (s : Shape) : Nat := s.prod

/-- Split a nonempty list into its leading part and its last element;
reduces definitionally on cons cells, which keeps proofs about literal
shapes short. -/
def splitLast : List Nat → Option (List Nat × Nat)
  | [] => none
  | [a] => some ([], a)
  | a :: b :: t => (splitLast (b :: t)).map fun r => (a :: r.1, r.2)

/-- Modelled from the spec: LayerNorm(d) of the Transformer module (the
file Transformer.py is imported by InitStrGenerator.py but is not part of
this fragment). Layer normalisation over the last dimension: requires the
last dimension to equal d and preserves the shape. -/
def LayerNorm_shape (d : Nat) (s : Shape) : Option Shape :=
  match splitLast s with
  | some (_, last) => if last = d then some s else none
  | none => none

/-- nn.Linear(din, dout): requires the last dimension to equal din and
replaces it by dout. -/
def Linear_shape (din dout : Nat) (s : Shape) : Option Shape :=
  match splitLast s with
  | some (init, last) => if last = din then some (init ++ [dout]) else none
  | none => none

/-- nn.ELU: elementwise, shape preserving. -/
def ELU_shape (s : Shape) : Shape := s

/-- Modelled from the spec: SequenceWeight(d_model, 1, dropout) of the
Transformer module (Transformer.py is not part of this fragment). On an
alignment tensor of shape (B, N, L, d_model) it produces per-sequence
attention weights of shape (B, L, heads, 1, N) with heads = 1; it reads
the target sequence msa[:,:,0], so it requires N to be at least 1, and its
query/key projections require the last dimension to equal d_model. -/
def SequenceWeight_shape (d : Nat) (s : Shape) : Option Shape :=
  match s with
  | [b, n, l, k] => if k = d ∧ 1 ≤ n then some [b, l, 1, 1, n] else none
  | _ => none

/-- torch reshape to an explicit target shape: requires equal element
counts. -/
def reshape_shape (s target : Shape) : Option Shape :=
  if numel s = numel target then some target else none

/-- torch reshape with an explicit leading dimension and an inferred -1
second dimension, as in node.reshape(B*L, -1): torch requires the known
part to be nonzero and to divide the element count. -/
def reshape_infer (s : Shape) (m : Nat) : Option Shape :=
  if m ≠ 0 ∧ m ∣ numel s then some [m, numel s / m] else none

/-- permute(0, 3, 1, 2) on a rank-4 tensor. -/
def permute0312 (s : Shape) : Option Shape :=
  match s with
  | [a, b, c, d] => some [a, d, b, c]
  | _ => none

/-- Right-aligned broadcasting on reversed shapes (innermost dimension
first), following the torch broadcasting rule. -/
def bcastRev : List Nat → List Nat → Option (List Nat)
  | [], t => some t
  | a :: s, [] => some (a :: s)
  | a :: s, b :: t =>
    (bcastRev s t).bind fun r =>
      if a = b then some (a :: r)
      else if a = 1 then some (b :: r)
      else if b = 1 then some (a :: r)
      else none

/-- Shape of an elementwise binary operation (such as * or +) under torch
broadcasting. -/
def broadcast_shape (s t : Shape) : Option Shape :=
  (bcastRev s.reverse t.reverse).map List.reverse

/-- tensor.sum(dim=1) with keepdim=False: removes dimension 1, requiring
rank at least 2. -/
def sum_dim1 (s : Shape) : Option Shape :=
  match s with
  | a :: _ :: rest => some (a :: rest)
  | _ => none

/-- torch.cat((s, t), dim=-1): all dimensions but the last must agree; the
last dimensions add. -/
def cat_last (s t : Shape) : Option Shape :=
  match splitLast s, splitLast t with
  | some (i1, a), some (i2, b) => if i1 = i2 then some (i1 ++ [a + b]) else none
  | _, _ => none

/-! ## make_graph (InitStrGenerator.py lines 26-47) -/

/-- The triples (b, i, j) produced in row-major order by
torch.where(sep > 0) with sep = (idx[:,None,:] - idx[:,:,None]).abs(), so
sep[b,i,j] = abs(idx[b,j] - idx[b,i]). -/
def edge_triples (B L : Nat) (idx : Fin B → Fin L → ℤ) :
    List (Fin B × Fin L × Fin L) :=
  (List.finRange B).flatMap fun b =>
    (List.finRange L).flatMap fun i =>
      (List.finRange L).filterMap fun j =>
        if 0 < |idx b j - idx b i| then some (b, i, j) else none

/-- The torch_geometric Data object built by make_graph, kept at shape
level: the shape of the node matrix x, the list of (source, target) column
pairs of edge_index, and the shape of edge_attr. -/
structure GraphData where
  x : Shape
  edge_index : List (Nat × Nat)
  edge_attr : Shape
deriving DecidableEq, Repr

/-- Number of graph nodes: the row count of the node matrix x. -/
def GraphData.numNodes (g : GraphData) : Nat := g.x.headD 0

/-- InitStrGenerator.py lines 26-47. B and L are read from emb.shape[:2];
the advanced indexing emb[b,i,j] also requires a third dimension and
in-range indices; x = node.reshape(B*L, -1) requires B*L to be nonzero and
to divide the element count of node; src = b*L+i and tgt = b*L+j. The
device moves of make_graph are modelled separately by make_graph_moves. -/
def make_graph {B L : Nat} (node : Shape) (idx : Fin B → Fin L → ℤ)
    (emb : Shape) : Option GraphData :=
  match emb with
  | s0 :: s1 :: s2 :: rest =>
    let triples := edge_triples B L idx
    if (∀ t ∈ triples, t.1.1 < s0 ∧ t.2.1.1 < s1 ∧ t.2.2.1 < s2) ∧
        s0 * s1 ≠ 0 ∧ s0 * s1 ∣ numel node then
      some { x := [s0 * s1, numel node / (s0 * s1)],
             edge_index := triples.map fun t =>
               (t.1.1 * s1 + t.2.1.1, t.1.1 * s1 + t.2.2.1),
             edge_attr := triples.length :: rest }
    else none
  | _ => none

/-! ## UniMPBlock and InitStr_Network (InitStrGenerator.py lines 49-133) -/

/-- Modelled from the spec: TransformerConv(cin, cout, heads, dropout,
edge_dim) of the external torch_geometric library, at shape level: node
features of shape (n, cin), edge attributes of shape (E, edge_dim) with E
the number of edge columns, output of shape (n, cout*heads) since the
heads are concatenated. -/
def TransformerConv_shape (cin cout heads edge_dim : Nat)
    (g : GraphData) : Option Shape :=
  match g.x with
  | [n, c] =>
    if c = cin ∧ g.edge_attr = [g.edge_index.length, edge_dim]
    then some [n, cout * heads] else none
  | _ => none

/-- UniMPBlock.forward (InitStrGenerator.py lines 63-72) at shape level.
The cuda_amp_autocast decorator on it only affects floating-point
precision, never shapes, and is modelled by cuda_amp_autocast above. -/
def UniMPBlock.forward (node_dim edge_dim heads : Nat)
    (g : GraphData) : Option GraphData :=
  (TransformerConv_shape node_dim node_dim heads edge_dim g).bind fun x1 =>
    (LayerNorm_shape (node_dim * heads) x1).bind fun x2 =>
      (Linear_shape (node_dim * heads) node_dim x2).bind fun x3 =>
        -- out = self.Activ(x + xin)
        (broadcast_shape x3 g.x).bind fun xadd =>
          some { x := ELU_shape xadd, edge_index := g.edge_index,
                 edge_attr := g.edge_attr }

/-- nn.Sequential of nblocks copies of UniMPBlock (InitStrGenerator.py
lines 95-96): apply the block nblocks times. -/
def Sequential_UniMP (node_dim edge_dim heads : Nat) :
    Nat → GraphData → Option GraphData
  | 0, g => some g
  | n + 1, g =>
    (UniMPBlock.forward node_dim edge_dim heads g).bind
      (Sequential_UniMP node_dim edge_dim heads n)

/-- The constructor arguments of InitStr_Network (InitStrGenerator.py
lines 76-83), with their default values. -/
structure Config where
  node_dim_in : Nat := 64
  node_dim_hidden : Nat := 64
  edge_dim_in : Nat := 128
  edge_dim_hidden : Nat := 64
  nheads : Nat := 4
  nblocks : Nat := 3
deriving DecidableEq, Repr

/-- InitStr_Network.forward (InitStrGenerator.py lines 101-133) at shape
level. idx is the residue-index tensor of shape (B, L), given with its
values because the edge set of the graph depends on them; the other inputs
enter only through their shapes. B, N, L are read from msa.shape[:3]; the
final result is xyz.reshape(B, L, 3, 3). Device movement and module-state
effects are modelled separately by InitStr_Network.forward_state and
InitStr_Network.forward_moves. -/
def InitStr_Network.forward (cfg : Config) {B L : Nat}
    (seq1hot : Shape) (idx : Fin B → Fin L → ℤ)
    (msa0 pair0 : Shape) : Option Shape :=
  -- B, N, L = msa.shape[:3]
  (match msa0 with
   | b :: n :: l :: _ => some (b, n, l)
   | _ => none).bind fun BNL =>
    let Bm := BNL.1; let N := BNL.2.1; let Lm := BNL.2.2
    -- msa = self.norm_node(msa)
    (LayerNorm_shape cfg.node_dim_in msa0).bind fun msa1 =>
      -- pair = self.norm_edge(pair)
      (LayerNorm_shape cfg.edge_dim_in pair0).bind fun pair1 =>
        -- w_seq = self.encoder_seq(msa).reshape(B, L, 1, N).permute(0,3,1,2)
        (SequenceWeight_shape cfg.node_dim_in msa1).bind fun w0 =>
          (reshape_shape w0 [Bm, Lm, 1, N]).bind fun w1 =>
            (permute0312 w1).bind fun w_seq =>
              -- msa = w_seq * msa
              (broadcast_shape w_seq msa1).bind fun msa2 =>
                -- msa = msa.sum(dim=1)
                (sum_dim1 msa2).bind fun msa3 =>
                  -- node = torch.cat((msa, seq1hot), dim=-1)
                  (cat_last msa3 seq1hot).bind fun node0 =>
                    -- node = self.embed_x(node), embed_x = Linear(node_dim_in+21, node_dim_hidden) then ELU
                    (Linear_shape (cfg.node_dim_in + 21) cfg.node_dim_hidden node0).bind fun node1 =>
                      let node := ELU_shape node1
                      -- seqsep = get_seqsep(idx), shape (B, L, L, 1); see get_seqsep
                      let seqsep : Shape := [B, L, L, 1]
                      -- pair = torch.cat((pair, seqsep), dim=-1)
                      (cat_last pair1 seqsep).bind fun pair2 =>
                        -- pair = self.embed_e(pair), embed_e = Linear(edge_dim_in+1, edge_dim_hidden) then ELU
                        (Linear_shape (cfg.edge_dim_in + 1) cfg.edge_dim_hidden pair2).bind fun pair3 =>
                          let pairE := ELU_shape pair3
                          -- G = make_graph(node, idx, pair)
                          (make_graph node idx pairE).bind fun G =>
                            -- Gout = self.transformer.to(fallback)(G)
                            (Sequential_UniMP cfg.node_dim_hidden cfg.edge_dim_hidden
                                cfg.nheads cfg.nblocks G).bind fun Gout =>
                              -- xyz = self.get_xyz(Gout.x.to(device)), get_xyz = Linear(node_dim_hidden, 9)
                              (Linear_shape cfg.node_dim_hidden 9 Gout.x).bind fun xyz =>
                                -- return xyz.reshape(B, L, 3, 3)
                                reshape_shape xyz [Bm, Lm, 3, 3]

/-! ## Module state and device moves (InitStrGenerator.py lines 101-133)

The fields of InitStr_Network registered in its constructor (lines 87-99),
projected to the device holding the parameters of each submodule. The
constructor registers norm_node first, so next(self.parameters()).device
is the device of norm_node. -/

structure InitStrState where
  norm_node_device : Device
  norm_edge_device : Device
  encoder_seq_device : Device
  embed_x_device : Device
  embed_e_device : Device
  transformer_device : Device
  get_xyz_device : Device
deriving DecidableEq, Repr

/-- Effect of one call of InitStr_Network.forward on the module state: the
only statement that mutates the module is self.transformer.to(fallback) on
line 129, which moves the parameters of the transformer submodule to the
fallback device; no statement of forward assigns to a field of self, so in
particular the graph G built on line 123 is referenced by no field after
the call. -/
def InitStr_Network.forward_state (st : InitStrState) : InitStrState :=
  -- device = next(self.parameters()).device
  let device := st.norm_node_device
  -- fallback = fallback_to_cpu_if_mps(device)
  let fallback := fallback_to_cpu_if_mps device
  -- self.transformer.to(fallback)
  { st with transformer_device := fallback }

/-- The (source device, target device) of each tensor.to(...) call executed
by make_graph, lines 35, 41 and 45: the three index tensors b, i, j derived
from idx, the node matrix x, and the edge attributes emb[b,i,j], all moved
to fallback_to_cpu_if_mps(emb.device). -/
def make_graph_moves (idx_device node_device emb_device : Device) :
    List (Device × Device) :=
  let fallback := fallback_to_cpu_if_mps emb_device
  [(idx_device, fallback), (idx_device, fallback), (idx_device, fallback),
   (node_device, fallback), (emb_device, fallback)]

/-- The (source device, target device) of each .to(...) call executed by one
call of InitStr_Network.forward whose inputs reside on the module device:
the moves of make_graph on line 123, the module move
self.transformer.to(fallback) on line 129, and Gout.x.to(device) on line
131 (the transformer output lives on the fallback device). -/
def InitStr_Network.forward_moves (st : InitStrState) : List (Device × Device) :=
  let device := st.norm_node_device
  let fallback := fallback_to_cpu_if_mps device
  make_graph_moves device device device ++ [(device, fallback), (fallback, device)]

/-! ## Build descriptor (lie_learn/setup.py lines 19-44)

Filesystem paths are modelled as their lists of components (the pieces
between path separators); glob performs input/output, so its result, the
list of .pyx paths found recursively under lie_learn/, is a parameter. -/

/-- A native extension module as described by setuptools.Extension with the
keyword arguments that setup.py passes. -/
structure BuildExtension where
  name : String
  sources : List (List String)
  include_dirs : List String
  libraries : List String
  extra_compile_args : List String
  extra_link_args : List String
deriving DecidableEq, Repr

/-- setup.py line 29. -/
def lie_learn_libraries : List String := ["lapack", "blas"]

/-- setup.py lines 30-35. -/
def lie_learn_compile_args : List String :=
  ["-O3", "-DACCELERATE_NEW_LAPACK", "-mmacosx-version-min=13.3",
   "-DNPY_NO_DEPRECATED_API=NPY_1_7_API_VERSION"]

/-- setup.py lines 36-41. -/
def lie_learn_link_args : List String :=
  ["-framework", "Accelerate", "-mmacosx-version-min=13.3",
   "-Wl,-rpath,/opt/miniconda3/envs/RoseTTAFold-OSX-ARM64/lib"]

/-- os.path.relpath(p, base) for a path p lying under base: drop the
leading base components. -/
def relpath_from (base p : List String) : List String := p.drop base.length

/-- Root part of os.path.splitext on a single path component, CPython
semantics on the character list: find the last extension separator; if
every character before it is itself a separator (including the case of
none), the name has no extension and is returned whole, otherwise the
characters before the last separator form the root. -/
def splitext_root_chars (cs : List Char) : List Char :=
  let rev := cs.reverse
  let extRev := rev.takeWhile fun c => c ≠ '.'
  match rev.drop extRev.length with
  | [] => cs
  | _ :: before =>
    if before.all (fun c => c = '.') then cs else before.reverse

/-- Root part of os.path.splitext on a single path component. -/
def splitext_root (s : String) : String := String.mk (splitext_root_chars s.data)

/-- Apply a function to the last component of a path. -/
def modify_last (f : String → String) : List String → List String
  | [] => []
  | [a] => [f a]
  | a :: b :: t => a :: modify_last f (b :: t)

/-- setup.py lines 24-26: the extension name of a .pyx file, the string
lie_learn. followed by the path of the file relative to lie_learn/ with
the extension stripped by os.path.splitext and the component separators
replaced by dots (on a path in component form, replacing os.path.sep by a
dot joins the components with dots). -/
def extension_module_name (pyx_file : List String) : String :=
  let rel := relpath_from ["lie_learn"] pyx_file
  let root := modify_last splitext_root rel
  "lie_learn." ++ String.intercalate "." root

/-- setup.py lines 22-44: the Extension object built for one .pyx file.
np.get_include() reads the installed numpy, so its value is the parameter
np_include. -/
def mk_extension (np_include : String) (pyx_file : List String) : BuildExtension :=
  { name := extension_module_name pyx_file,
    sources := [pyx_file],
    include_dirs := [np_include],
    libraries := lie_learn_libraries,
    extra_compile_args := lie_learn_compile_args,
    extra_link_args := lie_learn_link_args }

/-- setup.py lines 22-44: one Extension per .pyx file of the glob result. -/
def extensions (np_include : String) (pyx_files : List (List String)) :
    List BuildExtension :=
  pyx_files.map (mk_extension np_include)

/-! ## Claims about the device helpers -/

/-- Claim C2: for every torch device d, fallback_to_cpu_if_mps branches on
the device-type string: it returns the CPU device when d.type equals mps,
and returns d itself unchanged for every other device type. -/
theorem fallback_to_cpu_if_mps_branches (d : Device) :
    (d.type = "mps" → fallback_to_cpu_if_mps d = torch_device_cpu) ∧
    (d.type ≠ "mps" → fallback_to_cpu_if_mps d = d) := by
  constructor <;> intro h <;> simp [fallback_to_cpu_if_mps, h]

/-- Witness for C2 at the concrete devices mps and cuda:0. -/
theorem fallback_to_cpu_if_mps_branches_witness :
    fallback_to_cpu_if_mps { type := "mps", index := none } = torch_device_cpu ∧
    fallback_to_cpu_if_mps { type := "cuda", index := some 0 } =
      { type := "cuda", index := some 0 } :=
  ⟨(fallback_to_cpu_if_mps_branches { type := "mps", index := none }).1 rfl,
   (fallback_to_cpu_if_mps_branches { type := "cuda", index := some 0 }).2 (by decide)⟩

/-- Claim C3: for every flag and every function, cuda_amp_autocast(enabled)
applied to f returns f wrapped in torch.cuda.amp.autocast(enabled) when the
runtime reports CUDA available, and returns f unchanged otherwise. -/
theorem cuda_amp_autocast_branches (enabled : Bool) (env : TorchEnv) (func : PyCallable) :
    (env.cuda_is_available = true →
      cuda_amp_autocast enabled env func = torch_cuda_amp_autocast_apply enabled func) ∧
    (env.cuda_is_available = false →
      cuda_amp_autocast enabled env func = func) := by
  constructor <;> intro h <;>
    simp [cuda_amp_autocast, cuda_amp_autocast_decorator, h]

/-- Witness for C3 at a concrete flag, function and both runtime states. -/
theorem cuda_amp_autocast_branches_witness :
    cuda_amp_autocast true { cuda_is_available := true } (PyCallable.fn 0) =
      torch_cuda_amp_autocast_apply true (PyCallable.fn 0) ∧
    cuda_amp_autocast true { cuda_is_available := false } (PyCallable.fn 0) =
      PyCallable.fn 0 :=
  ⟨(cuda_amp_autocast_branches true { cuda_is_available := true } (PyCallable.fn 0)).1 rfl,
   (cuda_amp_autocast_branches true { cuda_is_available := false } (PyCallable.fn 0)).2 rfl⟩

/-- Claim C9: the helpers are total and raise nothing of their own: on
every input each returns through one of its two return statements, for
every device and for every flag, runtime state and function. -/
theorem helpers_total (d : Device) (enabled : Bool) (env : TorchEnv) (func : PyCallable) :
    (∃ r : Device, fallback_to_cpu_if_mps d = r ∧ (r = torch_device_cpu ∨ r = d)) ∧
    (∃ g : PyCallable, cuda_amp_autocast enabled env func = g ∧
      (g = torch_cuda_amp_autocast_apply enabled func ∨ g = func)) := by
  refine ⟨⟨fallback_to_cpu_if_mps d, rfl, ?_⟩,
          ⟨cuda_amp_autocast enabled env func, rfl, ?_⟩⟩
  · by_cases h : d.type = "mps" <;> simp [fallback_to_cpu_if_mps, h]
  · by_cases h : env.cuda_is_available <;>
      simp [cuda_amp_autocast, cuda_amp_autocast_decorator, h]

/-- Claim C10: fallback_to_cpu_if_mps is idempotent and its result never
has device type mps. -/
theorem fallback_to_cpu_if_mps_idempotent (d : Device) :
    fallback_to_cpu_if_mps (fallback_to_cpu_if_mps d) = fallback_to_cpu_if_mps d ∧
    (fallback_to_cpu_if_mps d).type ≠ "mps" := by
  by_cases h : d.type = "mps"
  · rw [show fallback_to_cpu_if_mps d = torch_device_cpu from by
      simp [fallback_to_cpu_if_mps, h]]
    decide
  · simp [fallback_to_cpu_if_mps, h]

/-- Witness for C10 at the concrete mps device. -/
theorem fallback_to_cpu_if_mps_idempotent_witness :
    fallback_to_cpu_if_mps (fallback_to_cpu_if_mps { type := "mps", index := none }) =
      fallback_to_cpu_if_mps { type := "mps", index := none } ∧
    (fallback_to_cpu_if_mps { type := "mps", index := none }).type ≠ "mps" :=
  fallback_to_cpu_if_mps_idempotent { type := "mps", index := none }

/-! ## Claim about get_seqsep -/

/-- Claim C5: get_seqsep has shape (B, L, L, 1) (the type of its result),
is antisymmetric in the residue pair, vanishes when the two residue
indices coincide, and every entry lies between -5.5 and 5.5 — for every
value of the logarithm. -/
theorem get_seqsep_props (log : ℤ → ℚ) {B L : Nat} (idx : Fin B → Fin L → ℤ)
    (b : Fin B) (i j : Fin L) (k : Fin 1) :
    get_seqsep log idx b i j k = -(get_seqsep log idx b j i k) ∧
    (idx b i = idx b j → get_seqsep log idx b i j k = 0) ∧
    -5.5 ≤ get_seqsep log idx b i j k ∧ get_seqsep log idx b i j k ≤ 5.5 := by
  unfold get_seqsep
  dsimp only
  refine ⟨?_, ?_, ?_, ?_⟩
  · rw [show idx b i - idx b j = -(idx b j - idx b i) from by ring,
      Int.sign_neg, abs_neg]
    push_cast
    ring
  · intro h
    rw [h]
    simp
  · have h0 : (0 : ℚ) ≤ min (max (log (|idx b j - idx b i| + 1)) 0) 5.5 :=
      le_min (le_max_right _ _) (by norm_num)
    have h1 : min (max (log (|idx b j - idx b i| + 1)) 0) 5.5 ≤ 5.5 :=
      min_le_right _ _
    rcases lt_trichotomy (idx b j - idx b i) 0 with hs | hs | hs
    · rw [Int.sign_eq_neg_one_iff_neg.2 hs]
      push_cast
      linarith
    · rw [hs]
      norm_num
    · rw [Int.sign_eq_one_iff_pos.2 hs]
      push_cast
      linarith
  · have h0 : (0 : ℚ) ≤ min (max (log (|idx b j - idx b i| + 1)) 0) 5.5 :=
      le_min (le_max_right _ _) (by norm_num)
    have h1 : min (max (log (|idx b j - idx b i| + 1)) 0) 5.5 ≤ 5.5 :=
      min_le_right _ _
    rcases lt_trichotomy (idx b j - idx b i) 0 with hs | hs | hs
    · rw [Int.sign_eq_neg_one_iff_neg.2 hs]
      push_cast
      linarith
    · rw [hs]
      norm_num
    · rw [Int.sign_eq_one_iff_pos.2 hs]
      push_cast
      linarith

/-- Witness for C5 at a concrete logarithm, index tensor and position. -/
theorem get_seqsep_props_witness :
    get_seqsep (fun z => (z : ℚ)) (fun _ _ : Fin 1 => (7 : ℤ)) 0 0 0 0 =
      -(get_seqsep (fun z => (z : ℚ)) (fun _ _ : Fin 1 => (7 : ℤ)) 0 0 0 0) ∧
    get_seqsep (fun z => (z : ℚ)) (fun _ _ : Fin 1 => (7 : ℤ)) 0 0 0 0 = 0 :=
  ⟨(get_seqsep_props (fun z => (z : ℚ)) (fun _ _ : Fin 1 => (7 : ℤ)) 0 0 0 0).1,
   (get_seqsep_props (fun z => (z : ℚ)) (fun _ _ : Fin 1 => (7 : ℤ)) 0 0 0 0).2.1 rfl⟩

/-! ## Claim about make_graph -/

/-- Inversion for the torch.where result: a triple is produced exactly when
the absolute separation of its two residue indices is positive. -/
theorem edge_triples_mem {B L : Nat} (idx : Fin B → Fin L → ℤ)
    (b : Fin B) (i j : Fin L) :
    (b, i, j) ∈ edge_triples B L idx ↔ 0 < |idx b j - idx b i| := by
  simp only [edge_triples, List.mem_flatMap, List.mem_filterMap, List.mem_finRange,
    true_and, Option.ite_none_right_eq_some, Option.some.injEq, Prod.mk.injEq]
  constructor
  · rintro ⟨b1, i1, j1, hc, rfl, rfl, rfl⟩
    exact hc
  · intro hc
    exact ⟨b, i, j, hc, rfl, rfl, rfl⟩

/-- Claim C4: for node tensor of shape (B, L, hd), idx of shape (B, L) and
embedding of shape (B, L, L, ed), the graph make_graph returns has exactly
B*L nodes, every edge joins two nodes of the same batch block with distinct
residue indices, and the edge relation is symmetric. -/
theorem make_graph_props {B L ed hd : Nat} (idx : Fin B → Fin L → ℤ)
    (G : GraphData) (hB : 0 < B) (hL : 0 < L)
    (hG : make_graph [B, L, hd] idx [B, L, L, ed] = some G) :
    G.numNodes = B * L ∧
    ∀ st ∈ G.edge_index, ∃ (bb : Fin B) (ii jj : Fin L),
      st = (bb.1 * L + ii.1, bb.1 * L + jj.1) ∧
      idx bb ii ≠ idx bb jj ∧
      bb.1 * L ≤ st.1 ∧ st.1 < (bb.1 + 1) * L ∧
      bb.1 * L ≤ st.2 ∧ st.2 < (bb.1 + 1) * L ∧
      (st.2, st.1) ∈ G.edge_index := by
  have hcond : (∀ t ∈ edge_triples B L idx,
      t.1.1 < B ∧ t.2.1.1 < L ∧ t.2.2.1 < L) ∧
      B * L ≠ 0 ∧ B * L ∣ numel [B, L, hd] := by
    refine ⟨fun t _ => ⟨t.1.2, t.2.1.2, t.2.2.2⟩,
      Nat.mul_ne_zero hB.ne' hL.ne', ⟨hd, ?_⟩⟩
    simp [numel]
    ring
  rw [show make_graph [B, L, hd] idx [B, L, L, ed] =
      (if (∀ t ∈ edge_triples B L idx,
          t.1.1 < B ∧ t.2.1.1 < L ∧ t.2.2.1 < L) ∧
          B * L ≠ 0 ∧ B * L ∣ numel [B, L, hd] then
        some { x := [B * L, numel [B, L, hd] / (B * L)],
               edge_index := (edge_triples B L idx).map fun t =>
                 (t.1.1 * L + t.2.1.1, t.1.1 * L + t.2.2.1),
               edge_attr := (edge_triples B L idx).length :: [ed] }
      else none) from rfl, if_pos hcond] at hG
  injection hG with hG
  subst hG
  refine ⟨rfl, ?_⟩
  intro st hst
  obtain ⟨t, ht, rfl⟩ := List.mem_map.1 hst
  obtain ⟨tb, ti, tj⟩ := t
  have hpos := (edge_triples_mem idx tb ti tj).1 ht
  refine ⟨tb, ti, tj, rfl, (sub_ne_zero.mp (abs_pos.mp hpos)).symm,
    Nat.le_add_right _ _, ?_, Nat.le_add_right _ _, ?_, ?_⟩
  · show tb.1 * L + ti.1 < (tb.1 + 1) * L
    rw [add_mul, one_mul]
    exact Nat.add_lt_add_left ti.2 _
  · show tb.1 * L + tj.1 < (tb.1 + 1) * L
    rw [add_mul, one_mul]
    exact Nat.add_lt_add_left tj.2 _
  · exact List.mem_map.2 ⟨(tb, tj, ti),
      (edge_triples_mem idx tb tj ti).2 (by rw [abs_sub_comm]; exact hpos), rfl⟩

/-- Witness for C4: a concrete batch of one sequence of length two with
distinct residue indices. -/
theorem make_graph_props_witness :
    GraphData.numNodes
      { x := [2, 5], edge_index := [(0, 1), (1, 0)], edge_attr := [2, 3] } = 1 * 2 := by
  have hG : @make_graph 1 2 [1, 2, 5] (fun _ t => (t.1 : ℤ)) [1, 2, 2, 3] =
      some { x := [2, 5], edge_index := [(0, 1), (1, 0)], edge_attr := [2, 3] } := by
    decide
  exact (make_graph_props (fun _ t => (t.1 : ℤ)) _ (by decide) (by decide) hG).1

/-! ## Helper evaluation lemmas for the forward-pass shape chain -/

theorem obind_some {α β : Type} (a : α) (f : α → Option β) :
    (Option.some a).bind f = f a := rfl

theorem splitLast_append (p : List Nat) (a : Nat) :
    splitLast (p ++ [a]) = some (p, a) := by
  induction p with
  | nil => rfl
  | cons x xs ih =>
    cases xs with
    | nil => rfl
    | cons y ys =>
      have ih2 : splitLast (y :: (ys ++ [a])) = some (y :: ys, a) := ih
      simp [splitLast, ih2]

theorem LayerNorm_shape_app (d : Nat) (p : List Nat) :
    LayerNorm_shape d (p ++ [d]) = some (p ++ [d]) := by
  simp [LayerNorm_shape, splitLast_append]

theorem Linear_shape_app (din dout : Nat) (p : List Nat) :
    Linear_shape din dout (p ++ [din]) = some (p ++ [dout]) := by
  simp [Linear_shape, splitLast_append]

theorem cat_last_app (p : List Nat) (a b : Nat) :
    cat_last (p ++ [a]) (p ++ [b]) = some (p ++ [a + b]) := by
  simp [cat_last, splitLast_append]

theorem SequenceWeight_shape_eval (d b n l : Nat) (hn : 1 ≤ n) :
    SequenceWeight_shape d [b, n, l, d] = some [b, l, 1, 1, n] := by
  simp [SequenceWeight_shape, hn]

theorem bcastRev_self (s : List Nat) : bcastRev s s = some s := by
  induction s with
  | nil => rfl
  | cons a t ih => simp [bcastRev, ih]

theorem broadcast_self (s : Shape) : broadcast_shape s s = some s := by
  simp [broadcast_shape, bcastRev_self]

theorem broadcast_last_one (p : List Nat) (d : Nat) :
    broadcast_shape (p ++ [1]) (p ++ [d]) = some (p ++ [d]) := by
  have h : bcastRev ((1 : Nat) :: p.reverse) (d :: p.reverse) =
      some (d :: p.reverse) := by
    simp only [bcastRev, bcastRev_self, obind_some]
    rcases eq_or_ne (1 : Nat) d with h1 | h1
    · subst h1
      simp
    · simp [h1]
  simp [broadcast_shape, List.reverse_append, h]

theorem make_graph_eval {B L : Nat} (ed hd : Nat) (idx : Fin B → Fin L → ℤ)
    (hB : 0 < B) (hL : 0 < L) :
    make_graph [B, L, hd] idx [B, L, L, ed] =
      some { x := [B * L, hd],
             edge_index := (edge_triples B L idx).map fun t =>
               (t.1.1 * L + t.2.1.1, t.1.1 * L + t.2.2.1),
             edge_attr := [(edge_triples B L idx).length, ed] } := by
  have hpos : 0 < B * L := Nat.mul_pos hB hL
  have hnum : numel [B, L, hd] = B * L * hd := by simp [numel, mul_assoc]
  rw [show make_graph [B, L, hd] idx [B, L, L, ed] =
      (if (∀ t ∈ edge_triples B L idx,
          t.1.1 < B ∧ t.2.1.1 < L ∧ t.2.2.1 < L) ∧
          B * L ≠ 0 ∧ B * L ∣ numel [B, L, hd] then
        some { x := [B * L, numel [B, L, hd] / (B * L)],
               edge_index := (edge_triples B L idx).map fun t =>
                 (t.1.1 * L + t.2.1.1, t.1.1 * L + t.2.2.1),
               edge_attr := (edge_triples B L idx).length :: [ed] }
      else none) from rfl]
  rw [if_pos (by
    refine ⟨fun t _ => ⟨t.1.2, t.2.1.2, t.2.2.2⟩, hpos.ne', ?_⟩
    rw [hnum]
    exact Dvd.intro hd rfl)]
  rw [hnum, Nat.mul_div_cancel_left hd hpos]

theorem UniMPBlock_forward_fixed (nd ed hs n : Nat) (g : GraphData)
    (hx : g.x = [n, nd]) (he : g.edge_attr = [g.edge_index.length, ed]) :
    UniMPBlock.forward nd ed hs g = some g := by
  obtain ⟨gx, gei, gea⟩ := g
  simp only at hx he
  subst hx
  subst he
  simp [UniMPBlock.forward, TransformerConv_shape, LayerNorm_shape,
    Linear_shape, splitLast, broadcast_self, ELU_shape]

theorem Sequential_UniMP_fixed (nd ed hs k n : Nat) (g : GraphData)
    (hx : g.x = [n, nd]) (he : g.edge_attr = [g.edge_index.length, ed]) :
    Sequential_UniMP nd ed hs k g = some g := by
  induction k with
  | zero => rfl
  | succ m ih =>
    simp [Sequential_UniMP, UniMPBlock_forward_fixed nd ed hs n g hx he, ih]

/-! ## Claim about InitStr_Network.forward -/

/-- Claim C1: for every configuration and every batch whose tensors have
the consistent shapes seq1hot (B, L, 21), idx (B, L), msa
(B, N, L, node_dim_in) and pair (B, L, L, edge_dim_in), with B, L and the
alignment depth N positive, InitStr_Network.forward succeeds and returns a
tensor of 3D coordinates of shape (B, L, 3, 3). -/
theorem InitStr_forward_shape (cfg : Config) {B L : Nat} (N : Nat)
    (idx : Fin B → Fin L → ℤ) (hB : 0 < B) (hL : 0 < L) (hN : 0 < N) :
    InitStr_Network.forward cfg [B, L, 21] idx
      [B, N, L, cfg.node_dim_in] [B, L, L, cfg.edge_dim_in] =
      some [B, L, 3, 3] := by
  have e1 : LayerNorm_shape cfg.node_dim_in [B, N, L, cfg.node_dim_in] =
      some [B, N, L, cfg.node_dim_in] := LayerNorm_shape_app _ [B, N, L]
  have e2 : LayerNorm_shape cfg.edge_dim_in [B, L, L, cfg.edge_dim_in] =
      some [B, L, L, cfg.edge_dim_in] := LayerNorm_shape_app _ [B, L, L]
  have e3 : SequenceWeight_shape cfg.node_dim_in [B, N, L, cfg.node_dim_in] =
      some [B, L, 1, 1, N] := SequenceWeight_shape_eval _ B N L hN
  have e4 : reshape_shape [B, L, 1, 1, N] [B, L, 1, N] = some [B, L, 1, N] := by
    simp [reshape_shape, numel]
  have e5 : permute0312 [B, L, 1, N] = some [B, N, L, 1] := rfl
  have e6 : broadcast_shape [B, N, L, 1] [B, N, L, cfg.node_dim_in] =
      some [B, N, L, cfg.node_dim_in] := broadcast_last_one [B, N, L] _
  have e7 : sum_dim1 [B, N, L, cfg.node_dim_in] =
      some [B, L, cfg.node_dim_in] := rfl
  have e8 : cat_last [B, L, cfg.node_dim_in] [B, L, 21] =
      some [B, L, cfg.node_dim_in + 21] := cat_last_app [B, L] _ _
  have e9 : Linear_shape (cfg.node_dim_in + 21) cfg.node_dim_hidden
      [B, L, cfg.node_dim_in + 21] = some [B, L, cfg.node_dim_hidden] :=
    Linear_shape_app _ _ [B, L]
  have e10 : cat_last [B, L, L, cfg.edge_dim_in] [B, L, L, 1] =
      some [B, L, L, cfg.edge_dim_in + 1] := cat_last_app [B, L, L] _ _
  have e11 : Linear_shape (cfg.edge_dim_in + 1) cfg.edge_dim_hidden
      [B, L, L, cfg.edge_dim_in + 1] = some [B, L, L, cfg.edge_dim_hidden] :=
    Linear_shape_app _ _ [B, L, L]
  have e12 := make_graph_eval cfg.edge_dim_hidden cfg.node_dim_hidden idx hB hL
  have e13 : Sequential_UniMP cfg.node_dim_hidden cfg.edge_dim_hidden
      cfg.nheads cfg.nblocks
      { x := [B * L, cfg.node_dim_hidden],
        edge_index := ((edge_triples B L idx).map fun t =>
          (t.1.1 * L + t.2.1.1, t.1.1 * L + t.2.2.1)),
        edge_attr := [(edge_triples B L idx).length, cfg.edge_dim_hidden] } =
      some { x := [B * L, cfg.node_dim_hidden],
             edge_index := ((edge_triples B L idx).map fun t =>
               (t.1.1 * L + t.2.1.1, t.1.1 * L + t.2.2.1)),
             edge_attr := [(edge_triples B L idx).length, cfg.edge_dim_hidden] } :=
    Sequential_UniMP_fixed _ _ _ _ (B * L) _ rfl (by simp)
  have e14 : Linear_shape cfg.node_dim_hidden 9 [B * L, cfg.node_dim_hidden] =
      some [B * L, 9] := Linear_shape_app _ _ [B * L]
  have e15 : reshape_shape [B * L, 9] [B, L, 3, 3] = some [B, L, 3, 3] := by
    unfold reshape_shape
    rw [if_pos (by unfold numel; simp; ring)]
  simp only [InitStr_Network.forward, obind_some, e1, e2, e3, e4, e5, e6, e7,
    e8, e9, e10, e11, e12, e13, e14, e15, ELU_shape]

/-- Witness for C1: the default configuration on a batch with B = N = L = 1. -/
theorem InitStr_forward_shape_witness :
    InitStr_Network.forward {} [1, 1, 21] (fun (_ : Fin 1) (_ : Fin 1) => (0 : ℤ))
      [1, 1, 1, 64] [1, 1, 1, 128] = some [1, 1, 3, 3] :=
  InitStr_forward_shape {} 1 (fun _ _ => 0) (by decide) (by decide) (by decide)

/-! ## Claims about module state and device movement -/

/-- Claim C6: a call of InitStr_Network.forward leaves every module field
untouched except the framework-managed device of the transformer submodule;
in particular no field of the module refers to the graph built by
make_graph after the call, and the post-state does not depend on the
inputs at all. -/
theorem InitStr_forward_state_frame (st : InitStrState) :
    (InitStr_Network.forward_state st).norm_node_device = st.norm_node_device ∧
    (InitStr_Network.forward_state st).norm_edge_device = st.norm_edge_device ∧
    (InitStr_Network.forward_state st).encoder_seq_device = st.encoder_seq_device ∧
    (InitStr_Network.forward_state st).embed_x_device = st.embed_x_device ∧
    (InitStr_Network.forward_state st).embed_e_device = st.embed_e_device ∧
    (InitStr_Network.forward_state st).get_xyz_device = st.get_xyz_device ∧
    (InitStr_Network.forward_state st).transformer_device =
      fallback_to_cpu_if_mps st.norm_node_device :=
  ⟨rfl, rfl, rfl, rfl, rfl, rfl, rfl⟩

/-- Counterexample to claim C8: with the module parameters on the mps
device, forward itself does move tensors and module parameters between
distinct devices: the move of the transformer parameters from mps to cpu
is among the .to calls it performs. -/
theorem forward_moves_counterexample :
    (({ type := "mps", index := none } : Device), torch_device_cpu) ∈
      InitStr_Network.forward_moves
        { norm_node_device := { type := "mps", index := none },
          norm_edge_device := { type := "mps", index := none },
          encoder_seq_device := { type := "mps", index := none },
          embed_x_device := { type := "mps", index := none },
          embed_e_device := { type := "mps", index := none },
          transformer_device := { type := "mps", index := none },
          get_xyz_device := { type := "mps", index := none } } ∧
    ({ type := "mps", index := none } : Device) ≠ torch_device_cpu := by
  decide

/-- Claim C8 (amended): the only device movement the code of forward and
make_graph performs is the mps fallback; whenever the module device is not
mps, every .to call they execute has target equal to source, so nothing
changes device. -/
theorem forward_moves_trivial_unless_mps (st : InitStrState)
    (h : st.norm_node_device.type ≠ "mps") :
    ∀ mv ∈ InitStr_Network.forward_moves st, mv.1 = mv.2 := by
  have hf : fallback_to_cpu_if_mps st.norm_node_device = st.norm_node_device := by
    simp [fallback_to_cpu_if_mps, h]
  intro mv hmv
  simp [InitStr_Network.forward_moves, make_graph_moves, hf] at hmv
  rw [hmv]

/-- Witness for the amended C8 at a concrete non-mps module state. -/
theorem forward_moves_trivial_unless_mps_witness :
    (torch_device_cpu, torch_device_cpu).1 = (torch_device_cpu, torch_device_cpu).2 :=
  forward_moves_trivial_unless_mps
    { norm_node_device := torch_device_cpu,
      norm_edge_device := torch_device_cpu,
      encoder_seq_device := torch_device_cpu,
      embed_x_device := torch_device_cpu,
      embed_e_device := torch_device_cpu,
      transformer_device := torch_device_cpu,
      get_xyz_device := torch_device_cpu }
    (by decide) (torch_device_cpu, torch_device_cpu) (by decide)

/-! ## Claim about the build descriptor -/

theorem modify_last_append (f : String → String) (l : List String) (a : String) :
    modify_last f (l ++ [a]) = l ++ [f a] := by
  induction l with
  | nil => rfl
  | cons x xs ih =>
    cases xs with
    | nil => rfl
    | cons y ys =>
      have ih2 : modify_last f (y :: (ys ++ [a])) = y :: ys ++ [f a] := ih
      simp [modify_last, ih2]

theorem splitext_root_chars_pyx (l : List Char) (hl : ∃ c ∈ l, c ≠ '.') :
    splitext_root_chars (l ++ ['.', 'p', 'y', 'x']) = l := by
  have h1 : (l ++ ['.', 'p', 'y', 'x']).reverse =
      'x' :: 'y' :: 'p' :: '.' :: l.reverse := by
    rw [List.reverse_append]
    rfl
  have hall : (l.reverse.all fun c => c = '.') = false := by
    obtain ⟨c, hc, hne⟩ := hl
    refine List.all_eq_false.2 ⟨c, List.mem_reverse.2 hc, by simp [hne]⟩
  unfold splitext_root_chars
  rw [h1]
  simp [List.takeWhile, hall]

theorem splitext_root_pyx (stem : String) (hs : ∃ c ∈ stem.data, c ≠ '.') :
    splitext_root (stem ++ ".pyx") = stem := by
  unfold splitext_root
  rw [show (stem ++ ".pyx").data = stem.data ++ ['.', 'p', 'y', 'x'] from by
    rw [String.data_append]]
  rw [splitext_root_chars_pyx stem.data hs]

/-- Claim C7: the build descriptor creates exactly one extension per .pyx
file of the glob result; the extension for the file with components
lie_learn :: dirs ++ [stem.pyx] is named lie_learn. followed by the
dot-joined relative path with the extension stripped, has that file as its
only source, and all extensions receive the same include dirs, libraries,
compile flags and link flags. -/
theorem setup_extensions_spec (np_include : String)
    (pyx_files : List (List String)) :
    (extensions np_include pyx_files).length = pyx_files.length ∧
    (∀ ext ∈ extensions np_include pyx_files,
      ext.include_dirs = [np_include] ∧
      ext.libraries = lie_learn_libraries ∧
      ext.extra_compile_args = lie_learn_compile_args ∧
      ext.extra_link_args = lie_learn_link_args) ∧
    (∀ (dirs : List String) (stem : String),
      ("lie_learn" :: (dirs ++ [stem ++ ".pyx"])) ∈ pyx_files →
      (∃ c ∈ stem.data, c ≠ '.') →
      { name := "lie_learn." ++ String.intercalate "." (dirs ++ [stem]),
        sources := [("lie_learn" :: (dirs ++ [stem ++ ".pyx"]))],
        include_dirs := [np_include],
        libraries := lie_learn_libraries,
        extra_compile_args := lie_learn_compile_args,
        extra_link_args := lie_learn_link_args } ∈
        extensions np_include pyx_files) := by
  refine ⟨List.length_map _ _, ?_, ?_⟩
  · intro ext hext
    obtain ⟨pf, hpf, rfl⟩ := List.mem_map.1 hext
    exact ⟨rfl, rfl, rfl, rfl⟩
  · intro dirs stem hmem hstem
    have hname : extension_module_name ("lie_learn" :: (dirs ++ [stem ++ ".pyx"])) =
        "lie_learn." ++ String.intercalate "." (dirs ++ [stem]) := by
      unfold extension_module_name relpath_from
      simp only [List.length_cons, List.length_nil, List.drop_succ_cons, List.drop_zero]
      rw [modify_last_append, splitext_root_pyx stem hstem]
    refine List.mem_map.2 ⟨("lie_learn" :: (dirs ++ [stem ++ ".pyx"])), hmem, ?_⟩
    simp [mk_extension, hname]

/-- Witness for C7: a single concrete .pyx file. -/
theorem setup_extensions_spec_witness :
    ({ name := "lie_learn." ++ String.intercalate "." (["groups"] ++ ["so3"]),
       sources := [("lie_learn" :: (["groups"] ++ ["so3" ++ ".pyx"]))],
       include_dirs := ["inc"],
       libraries := lie_learn_libraries,
       extra_compile_args := lie_learn_compile_args,
       extra_link_args := lie_learn_link_args } : BuildExtension) ∈
      extensions "inc" [("lie_learn" :: (["groups"] ++ ["so3" ++ ".pyx"]))] :=
  (setup_extensions_spec "inc" [("lie_learn" :: (["groups"] ++ ["so3" ++ ".pyx"]))]).2.2
    ["groups"] "so3" (by simp) (by decide)
